import Mathlib

/-!
Verification of the iFix-Pro backup/restore core (`backup_ifix.py`,
`restore_ifix.py`) against its specification.

The Python source is shallowly embedded: pure string manipulation becomes
functions on `List Char`; the HTTP record store is abstracted as an explicit
store state (the set of record identities present) together with success
oracles for the create/update calls; subprocess and network interactions are
driven by explicit response scripts.  All definitions are executable.
-/

namespace IfixPro

/-! ## Python string primitives (ASCII fragment used by the scripts) -/

/-- Model of Python `str.isalnum` restricted to the ASCII range, which is the
only range exercised by the claims. -/
def pyIsAlnum (c : Char) : Bool := c.isAlpha || c.isDigit

/-- Whitespace characters removed by Python `str.strip` (ASCII fragment). -/
def pyIsSpace (c : Char) : Bool :=
  c = ' ' || c = '\t' || c = '\n' || c = '\r' || c = '\x0b' || c = '\x0c'

/-- Python `str.strip`: drop leading and trailing whitespace. -/
def pyStrip (s : List Char) : List Char :=
  ((s.dropWhile pyIsSpace).reverse.dropWhile pyIsSpace).reverse

/-- Tests whether `pre` is a leading segment of the second list (Python `str.startswith`). -/
def listStartsWith : List Char → List Char → Bool
  | [], _ => true
  | _ :: _, [] => false
  | a :: as, b :: bs => a == b && listStartsWith as bs

/-- Tests whether `suf` is a trailing segment of the second list (Python `str.endswith`). -/
def listEndsWith (suf s : List Char) : Bool :=
  listStartsWith suf.reverse s.reverse

/-- Python substring containment `needle in hay`. -/
def pyContains (needle : List Char) : List Char → Bool
  | [] => needle.isEmpty
  | c :: t => listStartsWith needle (c :: t) || pyContains needle t

/-- One left-to-right pass of Python `str.replace(pat, "")` for a non-empty
pattern `pat`, fuelled by the length of the scanned list (each step consumes
at least one character, so `fuel = s.length` always suffices). -/
def pyEraseAllAux (pat : List Char) : Nat → List Char → List Char
  | 0, s => s
  | _ + 1, [] => []
  | fuel + 1, c :: t =>
    if listStartsWith pat (c :: t) then
      pyEraseAllAux pat fuel ((c :: t).drop pat.length)
    else
      c :: pyEraseAllAux pat fuel t

/-- Python `s.replace(pat, "")` for non-empty `pat`: remove every
(left-to-right, non-overlapping) occurrence of `pat`. -/
def pyEraseAll (pat s : List Char) : List Char :=
  pyEraseAllAux pat s.length s

/-! ## Tenant folder-key derivation (backup_ifix.py, `backup_tenant`, l.364-367)

```python
safe = "".join(c if c.isalnum() or c in "._- " else "_" for c in oname).strip().replace(" ", "_")
folder_key = f"{safe}_{oid[:8]}"
```
-/

/-- Characters kept unchanged by the sanitizer: alphanumerics plus `"._- "`. -/
def keepChar (c : Char) : Bool :=
  pyIsAlnum c || c = '.' || c = '_' || c = '-' || c = ' '

/-- One character of the sanitizing join: keep it or replace it by `'_'`. -/
def sanitizeChar (c : Char) : Char := if keepChar c then c else '_'

/-- The `safe` string computed in `backup_tenant`: sanitize each character,
strip leading/trailing whitespace, then turn spaces into underscores. -/
def safeName (oname : List Char) : List Char :=
  (pyStrip (oname.map sanitizeChar)).map fun c => if c = ' ' then '_' else c

/-- Folder-key derivation inlined in `backup_tenant`
(backup_ifix.py: 364-367): `f"{safe}_{oid[:8]}"`. -/
def deriveFolderKey (oname oid : String) : String :=
  String.mk (safeName oname.toList ++ '_' :: oid.toList.take 8)

/-- Modelled from the spec: the algorithm as §4.1 / claim C2 describe it —
sanitize and replace spaces, with NO intermediate `strip` step.  Used only to
compare the spec's wording with the source's `deriveFolderKey`. -/
def deriveFolderKeySpecWording (oname oid : String) : String :=
  String.mk (((oname.toList.map sanitizeChar).map
    fun c => if c = ' ' then '_' else c) ++ '_' :: oid.toList.take 8)

/-! ## Record model

Only the record identity drives the control flow of `pb_get_all` and of the
restore reconciler (`restore_collection_data` reads `record.get("id")` and
treats the remaining fields as an opaque payload), so a record is modelled by
its optional `id` field.  Python truthiness makes a missing id and an empty
string id behave identically. -/

/-- A record of the store; `rid` is the value of its `"id"` field, `none`
when the field is absent. -/
structure Record where
  rid : Option String
deriving DecidableEq, Repr

/-- The truthy identity of a record: `record.get("id")` followed by Python's
falsy test (`None` and `""` are both falsy). -/
def truthyId (r : Record) : Option String :=
  match r.rid with
  | none => none
  | some s => if s = "" then none else some s

/-! ## Pagination: `pb_get_all` (backup_ifix.py: 127-152)

The store's answer to each page request is modelled by a response script
consumed in order: a page of items, a 404, or any other transport error
(every exception is caught inside the loop, so the function always returns
normally — the embedding is a total function). -/

/-- One page response of the record store. -/
inductive PageResp where
  /-- Page returned `items` (HTTP 200). -/
  | items (l : List Record)
  /-- HTTP 404: unknown collection. -/
  | notFound
  /-- Any other transport error (non-2xx raised by `raise_for_status`,
  timeout, connection error, ...). -/
  | tErr
deriving DecidableEq, Repr

/-- The `while True` pagination loop: `acc` is `records` so far, `n` the
number of page requests already issued.  Returns the final record list and
the total number of page requests. -/
def pb_get_all_go (batch : Nat) (acc : List Record) (n : Nat) :
    List PageResp → List Record × Nat
  | [] => (acc, n)
  | PageResp.items l :: rest =>
    if l.length < batch then (acc ++ l, n + 1)
    else pb_get_all_go batch (acc ++ l) (n + 1) rest
  | PageResp.notFound :: _ => ([], n + 1)
  | PageResp.tErr :: _ => (acc, n + 1)

/-- The function `pb_get_all`: run the pagination loop from page 1 with an
empty accumulator against the response script. -/
def pb_get_all (batch : Nat) (script : List PageResp) : List Record × Nat :=
  pb_get_all_go batch [] 0 script

/-- Honest-store response script: the store holds `data` and serves page `p`
as `data[(p-1)*batch : p*batch]`, never failing.  Fuelled structural
recursion; `fuel = data.length` suffices whenever `0 < batch`. -/
def pagesOfAux (batch : Nat) : Nat → List Record → List PageResp
  | 0, data => [PageResp.items data]
  | fuel + 1, data =>
    if data.length < batch then [PageResp.items data]
    else PageResp.items (data.take batch) :: pagesOfAux batch fuel (data.drop batch)

/-- Response script of an honest store holding exactly `data`. -/
def pagesOf (batch : Nat) (data : List Record) : List PageResp :=
  pagesOfAux batch data.length data

/-! ## Upload with retry: `upload_gdrive` (backup_ifix.py: 259-290)

The rclone subprocess outcome of attempt `i` (1-based) is given by the oracle
`ok i`.  The function returns the success flag together with the total number
of seconds slept (`time.sleep(delay * attempt)` after every failed attempt
except the last). -/

/-- Retry loop body: `attempt` is the current 1-based attempt number,
the last argument is the number of attempts still allowed (including the
current one); it is `max_retries - attempt + 1` at every call. -/
def upload_go (delay : Nat) (ok : Nat → Bool) : Nat → Nat → Bool × Nat
  | _, 0 => (false, 0)
  | attempt, 1 => if ok attempt then (true, 0) else (false, 0)
  | attempt, remaining + 2 =>
    if ok attempt then (true, 0)
    else
      let r := upload_go delay ok (attempt + 1) (remaining + 1)
      (r.1, delay * attempt + r.2)

/-- The function `upload_gdrive`: up to `maxRetries` attempts starting at attempt 1,
sleeping `delay * attempt` seconds after each failed non-final attempt.
Returns (success, total seconds slept). -/
def upload_gdrive (maxRetries delay : Nat) (ok : Nat → Bool) : Bool × Nat :=
  upload_go delay ok 1 maxRetries

/-- The sum `delay*a + delay*(a+1) + ... + delay*(a+k-1)` of `k` consecutive
backoff intervals starting at attempt `a`. -/
def sleepSum (delay a : Nat) : Nat → Nat
  | 0 => 0
  | k + 1 => delay * a + sleepSum delay (a + 1) k

/-! ## Restore reconciler: `restore_collection_data` (restore_ifix.py: 158-211)

The live store is modelled by the list of record identities it currently
contains; the outcome of each mutating HTTP call is given by success oracles
(`createOk`/`updateOk`, indexed by record identity).  Every request issued to
the store is also recorded in an explicit call trace, so that "never issues a
mutating call" is a statement about the trace. -/

/-- A request issued to the record store by the restore path. -/
inductive StoreCall where
  /-- Request `GET /api/collections/.../records/...` — existence check. -/
  | check (collection rid : String)
  /-- Request `POST /api/collections/.../records` — create (mutating). -/
  | create (collection rid : String)
  /-- Request `PATCH /api/collections/.../records/...` — update (mutating). -/
  | update (collection rid : String)
deriving DecidableEq, Repr

/-- The four counters returned by `restore_collection_data`. -/
structure Totals where
  created : Nat
  updated : Nat
  skipped : Nat
  errors : Nat
deriving DecidableEq, Repr

/-- Pointwise sum of totals (accumulation across collection files). -/
def addTotals (a b : Totals) : Totals :=
  ⟨a.created + b.created, a.updated + b.updated,
   a.skipped + b.skipped, a.errors + b.errors⟩

/-- Result of a restore pass: counters, resulting store state, and the trace
of store requests issued (in order). -/
structure RestoreResult where
  totals : Totals
  store : List String
  calls : List StoreCall
deriving DecidableEq, Repr

/-- The function `restore_collection_data`: per record — skip when the id is falsy; in
dry-run count a would-be create without contacting the store; otherwise check
existence, then PATCH (update) or POST (create, carrying the id forward),
counting an error when the mutating call fails. -/
def restore_collection_data (collection : String) (createOk updateOk : String → Bool)
    (store : List String) (records : List Record) (dryRun : Bool) : RestoreResult :=
  match records with
  | [] => ⟨⟨0, 0, 0, 0⟩, store, []⟩
  | r :: rest =>
    match truthyId r with
    | none =>
      let x := restore_collection_data collection createOk updateOk store rest dryRun
      ⟨{ x.totals with skipped := x.totals.skipped + 1 }, x.store, x.calls⟩
    | some rid =>
      if dryRun then
        let x := restore_collection_data collection createOk updateOk store rest dryRun
        ⟨{ x.totals with created := x.totals.created + 1 }, x.store, x.calls⟩
      else if rid ∈ store then
        let x := restore_collection_data collection createOk updateOk store rest dryRun
        if updateOk rid then
          ⟨{ x.totals with updated := x.totals.updated + 1 }, x.store,
            StoreCall.check collection rid :: StoreCall.update collection rid :: x.calls⟩
        else
          ⟨{ x.totals with errors := x.totals.errors + 1 }, x.store,
            StoreCall.check collection rid :: StoreCall.update collection rid :: x.calls⟩
      else if createOk rid then
        let x := restore_collection_data collection createOk updateOk (rid :: store) rest dryRun
        ⟨{ x.totals with created := x.totals.created + 1 }, x.store,
          StoreCall.check collection rid :: StoreCall.create collection rid :: x.calls⟩
      else
        let x := restore_collection_data collection createOk updateOk store rest dryRun
        ⟨{ x.totals with errors := x.totals.errors + 1 }, x.store,
          StoreCall.check collection rid :: StoreCall.create collection rid :: x.calls⟩

/-! ## File-attachment restore: `restore_files` (restore_ifix.py: 214-242)

The `_files/{collection}/{record_id}/{filename}` tree is modelled as the flat
list of its file entries.  In dry-run the code logs a would-be upload; in
non-dry-run the loop only counts the file (the comment in the source notes
that re-upload is a manual step).  Neither branch issues any store request,
which the empty call trace makes explicit. -/

/-- One attachment file found under `_files`. -/
structure FileEntry where
  collection : String
  recordId : String
  filename : String
deriving DecidableEq, Repr

/-- The function `restore_files`: count every file entry; no store request is issued in
either mode (restore_ifix.py: 231-239). -/
def restore_files (entries : List FileEntry) (dryRun : Bool) : Nat × List StoreCall :=
  match entries with
  | [] => (0, [])
  | _ :: rest =>
    let r := restore_files rest dryRun
    (r.1 + 1, r.2)

/-! ## Archive restore: `restore_from_zip` (restore_ifix.py: 245-313)

An extracted archive is modelled by its directory entries in `os.walk`
pre-order (root first).  Each directory carries its regular files in
`os.listdir` order: a name plus, for JSON files, the parsed `"records"` field
of the envelope (`data.get("records", [])`).  The archives produced by
`backup_tenant` contain no directory whose name ends in `.json`, so listing
only regular files is faithful for the restore loop. -/

/-- A regular file of the extracted tree: its name and the `records` field
its JSON content parses to (irrelevant for non-collection files). -/
structure FFile where
  name : String
  records : List Record
deriving DecidableEq, Repr

/-- One directory of the extracted tree, identified by its files. -/
structure WalkDir where
  files : List FFile
deriving DecidableEq, Repr

/-- An extracted archive: the extraction root followed by the remaining
directories in `os.walk` pre-order. -/
structure Extracted where
  root : WalkDir
  rest : List WalkDir
deriving DecidableEq, Repr

/-- All walk entries, root first. -/
def walkDirs (e : Extracted) : List WalkDir := e.root :: e.rest

/-- Does this directory contain a `summary.json` file? -/
def hasSummary (d : WalkDir) : Bool :=
  d.files.any fun f => f.name == "summary.json"

/-- The `data_dir` selection (restore_ifix.py: 258-264): the first walked
directory containing `summary.json`, falling back to the extraction root. -/
def dataDir (e : Extracted) : WalkDir :=
  match (walkDirs e).find? hasSummary with
  | some d => d
  | none => e.root

/-- The per-file restore loop of `restore_from_zip` (restore_ifix.py:
279-298): process `{collection}.json` files other than `summary.json`,
skipping empty record lists, threading the store state and summing totals. -/
def restore_zip_go (createOk updateOk : String → Bool) (store : List String)
    (dryRun : Bool) : List FFile → RestoreResult
  | [] => ⟨⟨0, 0, 0, 0⟩, store, []⟩
  | f :: rest =>
    if listEndsWith ".json".toList f.name.toList && f.name != "summary.json" then
      if f.records.isEmpty then restore_zip_go createOk updateOk store dryRun rest
      else
        let collection := String.mk (pyEraseAll ".json".toList f.name.toList)
        let x := restore_collection_data collection createOk updateOk store f.records dryRun
        let y := restore_zip_go createOk updateOk x.store dryRun rest
        ⟨addTotals x.totals y.totals, y.store, x.calls ++ y.calls⟩
    else restore_zip_go createOk updateOk store dryRun rest

/-- The function `restore_from_zip` reduced to its store-visible behaviour: pick the data
directory, then run the restore loop over its files.  (`summary.json`, when
present, is additionally parsed and logged — it feeds nothing but the log.) -/
def restore_from_zip (createOk updateOk : String → Bool) (store : List String)
    (e : Extracted) (dryRun : Bool) : RestoreResult :=
  restore_zip_go createOk updateOk store dryRun (dataDir e).files

/-! ## Latest-archive selection: `restore_latest` (restore_ifix.py: 316-364)

The remote side is modelled by the folder list returned by
`rclone_list_dirs` and, per folder, the file-name list returned by
`rclone_list_files` (already sorted descending by name, as that function
sorts).  The function below computes which `(folder, archive)` pairs are fed
to `restore_from_zip`. -/

/-- The `restore_latest` target selection: apply the substring tenant filter,
drop `_`-prefixed system folders, process folders in sorted order, and pick
each folder's first `.zip` file (the lexicographically greatest name). -/
def restore_latest_targets (dirs : List String) (filesOf : String → List String)
    (tenantFilter : Option String) : List (String × String) :=
  let dirs1 : List String := match tenantFilter with
    | some f => dirs.filter fun d : String => pyContains f.toList d.toList
    | none => dirs
  let dirs2 : List String := dirs1.filter fun d : String =>
    !(listStartsWith "_".toList d.toList)
  (dirs2.mergeSort fun a b => decide (a ≤ b)).filterMap fun d : String =>
    (((filesOf d).filter fun n : String =>
      listEndsWith ".zip".toList n.toList).head?).map fun z => (d, z)

/-! ## Backup orchestrator: `main` (backup_ifix.py: 453-613)

The environment decides each stage's outcome: whether the full-DB snapshot is
produced and uploads succeed, and, per tenant, whether `backup_tenant` raises
or the archive upload succeeds (plus the post-upload verification result).
`main` appends one human-readable string to `errors` per failure and ends
with `sys.exit(2)` exactly when `errors` is non-empty; the model counts the
appended strings. -/

/-- Environment of one tenant iteration of the per-tenant loop. -/
inductive TenantEnv where
  /-- Case: `backup_tenant` (or the surrounding body) raises an exception. -/
  | raises
  /-- The body completes; `upload_gdrive` returns `ok`, and when `ok` the
  subsequent `verify_upload` returns `verified`. -/
  | uploads (ok : Bool) (verified : Bool)
deriving DecidableEq, Repr

/-- The `upload` field recorded in the per-tenant results entry. -/
inductive UploadStatus where
  | OK
  | FAILED
  | ERROR
deriving DecidableEq, Repr

/-- One iteration of the tenant loop (backup_ifix.py: 537-562): the recorded
outcome and the number of strings appended to `errors`.  A failed
verification is only logged (line 547) — the `verified` flag is unused. -/
def tenant_step : TenantEnv → UploadStatus × Nat
  | TenantEnv.raises => (UploadStatus.ERROR, 1)
  | TenantEnv.uploads ok _verified =>
    (if ok then UploadStatus.OK else UploadStatus.FAILED, if ok then 0 else 1)

/-- The whole per-tenant loop: outcome list (one entry per tenant, in order)
and total number of error strings appended. -/
def tenant_stage : List TenantEnv → List UploadStatus × Nat
  | [] => ([], 0)
  | t :: rest =>
    let s := tenant_step t
    let r := tenant_stage rest
    (s.1 :: r.1, s.2 + r.2)

/-- Environment of one whole orchestrator run (the stages after the fatal
preconditions — config, rclone, login — have passed). -/
structure RunEnv where
  /-- Config flag `include_pb_backup`. -/
  includePbBackup : Bool
  /-- Whether `pb_create_backup` returned a path (vs `None`). -/
  pbBackupOk : Bool
  /-- Upload of the full-DB snapshot succeeded. -/
  fulldbUploadOk : Bool
  /-- Upload of the global-collections archive succeeded. -/
  globalUploadOk : Bool
  /-- Per-tenant environments, in iteration order. -/
  tenants : List TenantEnv
deriving Repr

/-- Error strings appended by the full-snapshot stage
(backup_ifix.py: 481-491). -/
def fulldb_errors (e : RunEnv) : Nat :=
  if e.includePbBackup then
    if e.pbBackupOk then (if e.fulldbUploadOk then 0 else 1) else 1
  else 0

/-- Error strings appended by the global-collections stage
(backup_ifix.py: 527-529). -/
def global_errors (e : RunEnv) : Nat :=
  if e.globalUploadOk then 0 else 1

/-- Total number of strings in `errors` at the end of the run. -/
def run_error_count (e : RunEnv) : Nat :=
  fulldb_errors e + global_errors e + (tenant_stage e.tenants).2

/-- Exit policy (backup_ifix.py: 612-613): `sys.exit(2)` when `errors` is
non-empty, normal exit (code 0) otherwise. -/
def exit_code (e : RunEnv) : Nat :=
  if run_error_count e ≠ 0 then 2 else 0

/-! ## Summary-content replacement (for claim C8)

Two extracted archives that agree everywhere except in the parsed contents of
files named `summary.json` are related by `mapSummary g` for some content
transformation `g`. -/

/-- Replace the parsed contents of a file when (and only when) it is named
`summary.json`. -/
def mapSummaryFile (g : List Record → List Record) (f : FFile) : FFile :=
  if f.name == "summary.json" then ⟨f.name, g f.records⟩ else f

/-- Apply the `summary.json` content replacement throughout a directory. -/
def mapSummaryDir (g : List Record → List Record) (d : WalkDir) : WalkDir :=
  ⟨d.files.map (mapSummaryFile g)⟩

/-- Apply the `summary.json` content replacement throughout an archive. -/
def mapSummary (g : List Record → List Record) (e : Extracted) : Extracted :=
  ⟨mapSummaryDir g e.root, e.rest.map (mapSummaryDir g)⟩

/-! # Theorems -/

/-! ## C2: folder-key derivation -/

/-- C2 counterexample: the claim says `"Toko #1"` maps to `Toko_1_{id8}`, but
the code keeps the space of `"Toko #1"` (it is in the allowed set), turns
`#` into `_`, and only then rewrites the space, producing `Toko__1_{id8}`
with a double underscore.  Moreover the algorithm as worded (no `strip`
step) disagrees with the code on names with leading whitespace. -/
theorem c2_counterexample :
    deriveFolderKey "Toko #1" "abcdefgh1234" ≠ "Toko_1_abcdefgh" ∧
    deriveFolderKey "Toko #1" "abcdefgh1234" = "Toko__1_abcdefgh" ∧
    deriveFolderKey " Toko" "abcdefgh1234" ≠
      deriveFolderKeySpecWording " Toko" "abcdefgh1234" :=
  ⟨by decide, by decide, by decide⟩

/-- C2 (amended): `deriveFolderKey` is deterministic — equal (name, id)
pairs yield equal keys — and it keeps alphanumerics, dot, underscore, hyphen
and space, replaces every other character with underscore, strips leading and
trailing whitespace, replaces spaces with underscore, and appends `_` plus
the first 8 characters of the tenant identity; the names `"Toko #1"` and
`"Toko @1"` with identical id both map to `Toko__1_{id8}`. -/
theorem c2_deriveFolderKey_amended (n1 n2 i1 i2 oid : String)
    (hn : n1 = n2) (hi : i1 = i2) :
    deriveFolderKey n1 i1 = deriveFolderKey n2 i2 ∧
    deriveFolderKey "Toko #1" oid =
      String.mk ("Toko__1_".toList ++ oid.toList.take 8) ∧
    deriveFolderKey "Toko @1" oid =
      String.mk ("Toko__1_".toList ++ oid.toList.take 8) := by
  subst hn hi
  exact ⟨rfl, rfl, rfl⟩

/-- Witness for the amended C2 theorem at a concrete (name, id) pair. -/
theorem c2_deriveFolderKey_amended_witness :
    deriveFolderKey "Toko #1" "abcdefgh1234" =
      deriveFolderKey "Toko #1" "abcdefgh1234" ∧
    deriveFolderKey "Toko #1" "abcdefgh1234" =
      String.mk ("Toko__1_".toList ++ "abcdefgh1234".toList.take 8) ∧
    deriveFolderKey "Toko @1" "abcdefgh1234" =
      String.mk ("Toko__1_".toList ++ "abcdefgh1234".toList.take 8) :=
  c2_deriveFolderKey_amended "Toko #1" "Toko #1" "abcdefgh1234" "abcdefgh1234"
    "abcdefgh1234" rfl rfl

/-! ## C4: upload retry with linear backoff -/

/-- If attempts `a, a+1, ..., a+k-1` fail and attempt `a+k` succeeds within
the allowed budget, the retry loop returns success after sleeping exactly the
`k` backoff intervals `delay*a, ..., delay*(a+k-1)`. -/
theorem upload_go_succeeds (delay : Nat) (ok : Nat → Bool) :
    ∀ (k a remaining : Nat), (∀ i, i < k → ok (a + i) = false) →
    ok (a + k) = true → k < remaining →
    upload_go delay ok a remaining = (true, sleepSum delay a k) := by
  intro k
  induction k with
  | zero =>
    intro a remaining _ hsucc hlt
    match remaining, hlt with
    | 1, _ => simp [upload_go, Nat.add_zero] at hsucc ⊢; simp [hsucc, sleepSum]
    | r + 2, _ => simp [upload_go, Nat.add_zero] at hsucc ⊢; simp [hsucc, sleepSum]
  | succ k ih =>
    intro a remaining hfail hsucc hlt
    match remaining, hlt with
    | r + 2, hlt =>
      have ha : ok a = false := by simpa using hfail 0 (Nat.succ_pos k)
      have hrec : upload_go delay ok (a + 1) (r + 1) = (true, sleepSum delay (a + 1) k) := by
        apply ih
        · intro i hi
          have := hfail (i + 1) (by omega)
          simpa [Nat.add_comm, Nat.add_assoc, Nat.add_left_comm] using this
        · have : a + 1 + k = a + (k + 1) := by omega
          rw [this]; exact hsucc
        · omega
      simp [upload_go, ha, hrec, sleepSum]

/-- If the retry loop reports failure, every attempt in its budget was made
and failed. -/
theorem upload_go_fails (delay : Nat) (ok : Nat → Bool) :
    ∀ (remaining a : Nat), (upload_go delay ok a remaining).1 = false →
    ∀ i, a ≤ i → i < a + remaining → ok i = false := by
  intro remaining
  induction remaining with
  | zero => intro a _ i h1 h2; omega
  | succ r ih =>
    intro a hres i h1 h2
    match r, hres, h2 with
    | 0, hres, h2 =>
      have hi : i = a := by omega
      subst hi
      by_cases h : ok i
      · simp [upload_go, h] at hres
      · simpa using h
    | r' + 1, hres, h2 =>
      by_cases h : ok a
      · simp [upload_go, h] at hres
      · rcases Nat.eq_or_lt_of_le h1 with heq | hlt
        · subst heq; simpa using h
        · have : (upload_go delay ok (a + 1) (r' + 1)).1 = false := by
            simpa [upload_go, h] using hres
          exact ih (a + 1) this i hlt (by omega)

/-- The sum `sleepSum` starting at attempt `a` is the interval sum over
`[a, a+k)`. -/
theorem sleepSum_eq_sum (delay : Nat) :
    ∀ (k a : Nat), sleepSum delay a k = ∑ i in Finset.Ico a (a + k), delay * i := by
  intro k
  induction k with
  | zero => intro a; simp [sleepSum]
  | succ k ih =>
    intro a
    rw [sleepSum, ih (a + 1)]
    rw [Finset.sum_eq_sum_Ico_succ_bot (show a < a + (k + 1) by omega)
      (fun i => delay * i)]
    have hb : a + 1 + k = a + (k + 1) := by omega
    rw [hb]

/-- C4: if the first `k < max_retries` attempts of the sync subprocess fail
and attempt `k+1` succeeds, `upload_gdrive` returns success and the total
time slept is `delay*1 + delay*2 + ... + delay*k`; and whenever it returns
failure, all `max_retries` attempts were made and failed. -/
theorem c4_upload_retry (maxRetries delay k : Nat) (ok ok2 : Nat → Bool)
    (hk : k < maxRetries)
    (hfail : ∀ i ∈ Finset.Icc 1 k, ok i = false)
    (hsucc : ok (k + 1) = true) :
    upload_gdrive maxRetries delay ok = (true, ∑ i in Finset.Icc 1 k, delay * i) ∧
    ((upload_gdrive maxRetries delay ok2).1 = false →
      ∀ i ∈ Finset.Icc 1 maxRetries, ok2 i = false) := by
  constructor
  · have h1 : upload_go delay ok 1 maxRetries = (true, sleepSum delay 1 k) := by
      apply upload_go_succeeds
      · intro i hi
        apply hfail
        rw [Finset.mem_Icc]
        omega
      · simpa [Nat.add_comm] using hsucc
      · exact hk
    have hset : Finset.Ico 1 (1 + k) = Finset.Icc 1 k := by
      rw [← Nat.Ico_succ_right, Nat.add_comm 1 k]
    rw [upload_gdrive, h1, sleepSum_eq_sum, hset]
  · intro hres i hi
    rw [Finset.mem_Icc] at hi
    exact upload_go_fails delay ok2 maxRetries 1 hres i hi.1 (by omega)

/-- Witness for C4: with `max_retries = 3`, `delay = 10`, attempt 1 failing
and attempt 2 succeeding, the upload succeeds after sleeping 10 seconds. -/
theorem c4_upload_retry_witness :
    upload_gdrive 3 10 (fun j => j == 2) = (true, ∑ i in Finset.Icc 1 1, 10 * i) ∧
    ((upload_gdrive 3 10 (fun _ => false)).1 = false →
      ∀ i ∈ Finset.Icc 1 3, (fun _ : Nat => false) i = false) :=
  c4_upload_retry 3 10 1 (fun j => j == 2) (fun _ => false)
    (by decide) (by decide) (by decide)

/-! ## C5: pagination against an honest store -/

/-- Running the pagination loop against an honest store holding `data`
returns all of `data` and issues `data.length / batch + 1` page requests,
for any positive page size and sufficient fuel. -/
theorem pb_go_pagesOfAux (batch : Nat) (hb : 0 < batch) :
    ∀ (fuel : Nat) (data : List Record) (acc : List Record) (n : Nat),
    data.length ≤ fuel →
    pb_get_all_go batch acc n (pagesOfAux batch fuel data) =
      (acc ++ data, n + data.length / batch + 1) := by
  intro fuel
  induction fuel with
  | zero =>
    intro data acc n hlen
    have hdata : data = [] := List.eq_nil_of_length_eq_zero (by omega)
    subst hdata
    simp [pagesOfAux, pb_get_all_go, hb, Nat.zero_div]
  | succ fuel ih =>
    intro data acc n hlen
    by_cases h : data.length < batch
    · simp [pagesOfAux, h, pb_get_all_go, Nat.div_eq_of_lt h]
    · have hblen : batch ≤ data.length := Nat.le_of_not_lt h
      have htake : (data.take batch).length = batch := by
        simp [List.length_take]
        omega
      rw [pagesOfAux]
      simp only [h, if_false]
      rw [pb_get_all_go]
      simp only [htake, Nat.lt_irrefl, if_false]
      rw [ih (data.drop batch) (acc ++ data.take batch) (n + 1)
        (by simp [List.length_drop]; omega)]
      have hjoin : acc ++ data.take batch ++ data.drop batch = acc ++ data := by
        rw [List.append_assoc, List.take_append_drop]
      have hdiv : data.length / batch = (data.length - batch) / batch + 1 :=
        Nat.div_eq_sub_div hb hblen
      rw [hjoin, List.length_drop, hdiv]
      simp only [Prod.mk.injEq, true_and]
      omega

/-- C5: against an honest store, a collection with exactly `N * batch`
records is fetched completely with exactly `N + 1` page requests, and a
collection with `batch - 1` records is fetched completely with exactly 1
page request. -/
theorem c5_pagination (batch N : Nat) (hb : 0 < batch)
    (data1 data2 : List Record)
    (h1 : data1.length = N * batch) (h2 : data2.length = batch - 1) :
    pb_get_all batch (pagesOf batch data1) = (data1, N + 1) ∧
    pb_get_all batch (pagesOf batch data2) = (data2, 1) := by
  constructor
  · rw [pb_get_all, pagesOf,
      pb_go_pagesOfAux batch hb data1.length data1 [] 0 (Nat.le_refl _)]
    rw [h1, Nat.mul_div_cancel N hb]
    simp
  · rw [pb_get_all, pagesOf,
      pb_go_pagesOfAux batch hb data2.length data2 [] 0 (Nat.le_refl _)]
    rw [h2, Nat.div_eq_of_lt (by omega)]
    simp

/-- Witness for C5 with page size 2: 4 records need 3 requests, 1 record
needs 1 request, and all records are returned in both cases. -/
theorem c5_pagination_witness :
    pb_get_all 2 (pagesOf 2 [⟨some "a"⟩, ⟨some "b"⟩, ⟨some "c"⟩, ⟨some "d"⟩]) =
      ([⟨some "a"⟩, ⟨some "b"⟩, ⟨some "c"⟩, ⟨some "d"⟩], 2 + 1) ∧
    pb_get_all 2 (pagesOf 2 [⟨some "e"⟩]) = ([⟨some "e"⟩], 1) :=
  c5_pagination 2 2 (by decide)
    [⟨some "a"⟩, ⟨some "b"⟩, ⟨some "c"⟩, ⟨some "d"⟩] [⟨some "e"⟩]
    (by decide) (by decide)

/-! ## C6: pagination error policy -/

/-- Full pages are accumulated and pagination continues past them. -/
theorem pb_go_full_pages (batch : Nat) :
    ∀ (fulls : List (List Record)), (∀ l ∈ fulls, l.length = batch) →
    ∀ (acc : List Record) (n : Nat) (rest : List PageResp),
    pb_get_all_go batch acc n (fulls.map PageResp.items ++ rest) =
      pb_get_all_go batch (acc ++ fulls.flatten) (n + fulls.length) rest := by
  intro fulls
  induction fulls with
  | nil => intro _ acc n rest; simp
  | cons l fulls ih =>
    intro hf acc n rest
    have hl : l.length = batch := hf l (List.mem_cons_self l fulls)
    rw [List.map_cons, List.cons_append, pb_get_all_go]
    simp only [hl, Nat.lt_irrefl, if_false]
    rw [ih (fun x hx => hf x (List.mem_cons_of_mem l hx)) (acc ++ l) (n + 1) rest]
    rw [List.flatten_cons, ← List.append_assoc, List.length_cons]
    have hn : n + 1 + fulls.length = n + (fulls.length + 1) := by omega
    rw [hn]

/-- C6: after any number of full pages, a 404 response makes `pb_get_all`
return the empty record list (not a failure), while any other transport
error stops pagination and returns exactly the records accumulated from the
pages fetched before the error; being a total function, the model never
propagates an error to the caller. -/
theorem c6_fetch_error_policy (batch : Nat) (fulls : List (List Record))
    (rest1 rest2 : List PageResp) (hf : ∀ l ∈ fulls, l.length = batch) :
    pb_get_all batch (fulls.map PageResp.items ++ PageResp.notFound :: rest1) =
      ([], fulls.length + 1) ∧
    pb_get_all batch (fulls.map PageResp.items ++ PageResp.tErr :: rest2) =
      (fulls.flatten, fulls.length + 1) := by
  constructor
  · rw [pb_get_all, pb_go_full_pages batch fulls hf [] 0 _]
    simp [pb_get_all_go]
  · rw [pb_get_all, pb_go_full_pages batch fulls hf [] 0 _]
    simp [pb_get_all_go]

/-- Witness for C6: one full page of size 2 followed by a 404 yields `[]`;
followed by a transport error it yields exactly that first page. -/
theorem c6_fetch_error_policy_witness :
    pb_get_all 2 ([[(⟨some "a"⟩ : Record), ⟨some "b"⟩]].map PageResp.items ++
      PageResp.notFound :: []) = ([], [[(⟨some "a"⟩ : Record), ⟨some "b"⟩]].length + 1) ∧
    pb_get_all 2 ([[(⟨some "a"⟩ : Record), ⟨some "b"⟩]].map PageResp.items ++
      PageResp.tErr :: []) =
      ([[(⟨some "a"⟩ : Record), ⟨some "b"⟩]].flatten,
        [[(⟨some "a"⟩ : Record), ⟨some "b"⟩]].length + 1) :=
  c6_fetch_error_policy 2 [[⟨some "a"⟩, ⟨some "b"⟩]] [] [] (by decide)

/-! ## C1: round-trip restore -/

/-- First restore pass: when every record carries a (pairwise distinct)
identity absent from the store and every create call succeeds, everything is
created and the resulting store contains exactly the old ids plus the
restored ones. -/
theorem rcd_create_pass (collection : String) (createOk updateOk : String → Bool)
    (hc : ∀ i, createOk i = true) :
    ∀ (records : List Record) (store : List String),
    (∀ r ∈ records, (truthyId r).isSome) →
    (records.filterMap truthyId).Nodup →
    (∀ i ∈ records.filterMap truthyId, i ∉ store) →
    (restore_collection_data collection createOk updateOk store records false).totals =
      ⟨records.length, 0, 0, 0⟩ ∧
    ∀ x, (x ∈ (restore_collection_data collection createOk updateOk store records false).store ↔
      x ∈ store ∨ x ∈ records.filterMap truthyId) := by
  intro records
  induction records with
  | nil =>
    intro store _ _ _
    exact ⟨rfl, fun x => by simp [restore_collection_data]⟩
  | cons r rest ih =>
    intro store hids hnodup hdisj
    obtain ⟨rid, hrid⟩ := Option.isSome_iff_exists.mp (hids r (List.mem_cons_self r rest))
    have hfm : (r :: rest).filterMap truthyId = rid :: rest.filterMap truthyId := by
      simp [List.filterMap_cons, hrid]
    have hnotin : rid ∉ store := by
      apply hdisj
      rw [hfm]
      exact List.mem_cons_self _ _
    have hnodup2 : (rest.filterMap truthyId).Nodup := by
      rw [hfm] at hnodup
      exact hnodup.of_cons
    have hridnotin : rid ∉ rest.filterMap truthyId := by
      rw [hfm] at hnodup
      exact (List.nodup_cons.mp hnodup).1
    have hdisj2 : ∀ i ∈ rest.filterMap truthyId, i ∉ (rid :: store) := by
      intro i hi
      simp only [List.mem_cons]
      push_neg
      refine ⟨?_, ?_⟩
      · intro he
        subst he
        exact absurd hi hridnotin
      · apply hdisj
        rw [hfm]
        exact List.mem_cons_of_mem _ hi
    obtain ⟨iht, ihs⟩ :=
      ih (rid :: store) (fun x hx => hids x (List.mem_cons_of_mem r hx)) hnodup2 hdisj2
    rw [restore_collection_data]
    simp only [hrid, Bool.false_eq_true, if_false, if_neg hnotin, hc rid, if_true]
    refine ⟨?_, ?_⟩
    · simp [iht]
    · intro x
      rw [ihs x, hfm]
      simp only [List.mem_cons]
      tauto

/-- Second restore pass: when every record carries an identity already in
the store and every update call succeeds, everything is updated and the
store is unchanged. -/
theorem rcd_update_pass (collection : String) (createOk updateOk : String → Bool)
    (hu : ∀ i, updateOk i = true) :
    ∀ (records : List Record) (store : List String),
    (∀ r ∈ records, (truthyId r).isSome) →
    (∀ i ∈ records.filterMap truthyId, i ∈ store) →
    (restore_collection_data collection createOk updateOk store records false).totals =
      ⟨0, records.length, 0, 0⟩ ∧
    (restore_collection_data collection createOk updateOk store records false).store = store := by
  intro records
  induction records with
  | nil =>
    intro store _ _
    exact ⟨rfl, rfl⟩
  | cons r rest ih =>
    intro store hids hin
    obtain ⟨rid, hrid⟩ := Option.isSome_iff_exists.mp (hids r (List.mem_cons_self r rest))
    have hfm : (r :: rest).filterMap truthyId = rid :: rest.filterMap truthyId := by
      simp [List.filterMap_cons, hrid]
    have hridin : rid ∈ store := by
      apply hin
      rw [hfm]
      exact List.mem_cons_self _ _
    have hin2 : ∀ i ∈ rest.filterMap truthyId, i ∈ store := by
      intro i hi
      apply hin
      rw [hfm]
      exact List.mem_cons_of_mem _ hi
    obtain ⟨iht, ihs⟩ := ih store (fun x hx => hids x (List.mem_cons_of_mem r hx)) hin2
    rw [restore_collection_data]
    simp only [hrid, Bool.false_eq_true, if_false, if_pos hridin, hu rid, if_true]
    exact ⟨by simp [iht], ihs⟩

/-- C1: restoring a collection of identity-carrying records (with pairwise
distinct identities) against a store containing none of them, with every
create call succeeding, creates every record with no updates, skips and
errors; restoring the same records a second time against the resulting
store updates every record with no creates, skips and errors. -/
theorem c1_roundtrip_restore (collection : String) (createOk updateOk : String → Bool)
    (records : List Record) (store : List String)
    (hids : ∀ r ∈ records, (truthyId r).isSome)
    (hnodup : (records.filterMap truthyId).Nodup)
    (hdisj : ∀ i ∈ records.filterMap truthyId, i ∉ store)
    (hc : ∀ i, createOk i = true) (hu : ∀ i, updateOk i = true) :
    (restore_collection_data collection createOk updateOk store records false).totals =
      ⟨records.length, 0, 0, 0⟩ ∧
    (restore_collection_data collection createOk updateOk
      (restore_collection_data collection createOk updateOk store records false).store
      records false).totals = ⟨0, records.length, 0, 0⟩ := by
  obtain ⟨h1, hstore⟩ := rcd_create_pass collection createOk updateOk hc records store hids hnodup hdisj
  refine ⟨h1, ?_⟩
  have hin : ∀ i ∈ records.filterMap truthyId,
      i ∈ (restore_collection_data collection createOk updateOk store records false).store := by
    intro i hi
    exact (hstore i).mpr (Or.inr hi)
  exact (rcd_update_pass collection createOk updateOk hu records _ hids hin).1

/-- Witness for C1: two fresh records restored into a store holding only an
unrelated id are both created; a second pass updates both. -/
theorem c1_roundtrip_restore_witness :
    (restore_collection_data "users" (fun _ => true) (fun _ => true) ["x"]
      [⟨some "a"⟩, ⟨some "b"⟩] false).totals = ⟨2, 0, 0, 0⟩ ∧
    (restore_collection_data "users" (fun _ => true) (fun _ => true)
      (restore_collection_data "users" (fun _ => true) (fun _ => true) ["x"]
        [⟨some "a"⟩, ⟨some "b"⟩] false).store
      [⟨some "a"⟩, ⟨some "b"⟩] false).totals = ⟨0, 2, 0, 0⟩ :=
  c1_roundtrip_restore "users" (fun _ => true) (fun _ => true)
    [⟨some "a"⟩, ⟨some "b"⟩] ["x"]
    (by decide) (by decide) (by decide) (fun _ => rfl) (fun _ => rfl)

/-! ## C3: dry-run restore -/

/-- Dry-run `restore_collection_data`: no store request at all, zero errors,
every truthy-identity record counted as a would-be create, every other
record skipped, store untouched. -/
theorem rcd_dry_run (collection : String) (createOk updateOk : String → Bool) :
    ∀ (records : List Record) (store : List String),
    restore_collection_data collection createOk updateOk store records true =
      ⟨⟨(records.filter fun r => (truthyId r).isSome).length, 0,
        (records.filter fun r => !(truthyId r).isSome).length, 0⟩, store, []⟩ := by
  intro records
  induction records with
  | nil => intro store; rfl
  | cons r rest ih =>
    intro store
    rw [restore_collection_data]
    cases hrid : truthyId r with
    | none => simp [List.filter_cons, hrid, ih store]
    | some rid => simp [List.filter_cons, hrid, ih store]

/-- Dry-run restore of a whole archive: empty call trace, zero errors,
store untouched. -/
theorem rzg_dry_run (createOk updateOk : String → Bool) :
    ∀ (files : List FFile) (store : List String),
    (restore_zip_go createOk updateOk store true files).calls = [] ∧
    (restore_zip_go createOk updateOk store true files).totals.errors = 0 ∧
    (restore_zip_go createOk updateOk store true files).store = store := by
  intro files
  induction files with
  | nil => intro store; exact ⟨rfl, rfl, rfl⟩
  | cons f rest ih =>
    intro store
    rw [restore_zip_go]
    by_cases h1 : (listEndsWith ".json".toList f.name.toList && f.name != "summary.json") = true
    · rw [if_pos h1]
      by_cases h2 : f.records.isEmpty
      · rw [if_pos h2]
        exact ih store
      · rw [if_neg h2]
        simp only [rcd_dry_run]
        obtain ⟨ihc, ihe, ihs⟩ := ih store
        exact ⟨by simp [ihc], by simp [addTotals, ihe], by simp [ihs]⟩
    · rw [if_neg h1]
      exact ih store

/-- C3: in dry-run mode the restore path issues no store request at all (in
particular no create, update or upload), reports zero errors, leaves the
store untouched, counts every identity-carrying record of a collection as a
would-be create and every identity-less record as skipped; and the
file-attachment pass issues no request in any mode. -/
theorem c3_dry_run_no_mutation (createOk updateOk : String → Bool)
    (store : List String) (e : Extracted) (entries : List FileEntry)
    (collection : String) (records : List Record) :
    (restore_from_zip createOk updateOk store e true).calls = [] ∧
    (restore_from_zip createOk updateOk store e true).totals.errors = 0 ∧
    (restore_from_zip createOk updateOk store e true).store = store ∧
    restore_collection_data collection createOk updateOk store records true =
      ⟨⟨(records.filter fun r => (truthyId r).isSome).length, 0,
        (records.filter fun r => !(truthyId r).isSome).length, 0⟩, store, []⟩ ∧
    (restore_files entries true).2 = [] ∧
    (restore_files entries false).2 = [] := by
  obtain ⟨h1, h2, h3⟩ := rzg_dry_run createOk updateOk (dataDir e).files store
  refine ⟨h1, h2, h3, rcd_dry_run collection createOk updateOk records store, ?_, ?_⟩
  · induction entries with
    | nil => rfl
    | cons x rest ih => simpa [restore_files] using ih
  · induction entries with
    | nil => rfl
    | cons x rest ih => simpa [restore_files] using ih

/-! ## C7: per-tenant error isolation and exit policy -/

/-- The tenant loop records one outcome per tenant, in order. -/
theorem tenant_stage_map : ∀ ts : List TenantEnv,
    (tenant_stage ts).1 = ts.map fun t => (tenant_step t).1 := by
  intro ts
  induction ts with
  | nil => rfl
  | cons t rest ih => simp [tenant_stage, ih]

/-- C7: every tenant of the run gets an outcome (a raising tenant is
recorded as `ERROR` and the loop continues through the whole tenant list),
and the process exit code is nonzero precisely when some stage of the run
recorded an error. -/
theorem c7_error_isolation_exit (e : RunEnv) :
    (tenant_stage e.tenants).1 = e.tenants.map (fun t => (tenant_step t).1) ∧
    (tenant_stage e.tenants).1.length = e.tenants.length ∧
    tenant_step TenantEnv.raises = (UploadStatus.ERROR, 1) ∧
    (exit_code e ≠ 0 ↔ run_error_count e ≠ 0) := by
  refine ⟨tenant_stage_map e.tenants, ?_, rfl, ?_⟩
  · rw [tenant_stage_map e.tenants, List.length_map]
  · unfold exit_code
    split_ifs with h <;> simp [h]

/-! ## C10: post-upload verification failure has no effect -/

/-- The function `tenant_stage` distributes over list concatenation. -/
theorem tenant_stage_append : ∀ l1 l2 : List TenantEnv,
    tenant_stage (l1 ++ l2) =
      ((tenant_stage l1).1 ++ (tenant_stage l2).1,
        (tenant_stage l1).2 + (tenant_stage l2).2) := by
  intro l1 l2
  induction l1 with
  | nil => simp [tenant_stage]
  | cons t rest ih =>
    rw [List.cons_append, tenant_stage, ih, tenant_stage]
    simp [Nat.add_assoc]

/-- C10: a tenant whose upload succeeded but whose verification failed is
still recorded as upload `OK` with nothing appended to the error list, and
the verification result never influences the error count or the process
exit code. -/
theorem c10_verify_no_effect (inc pbOk fOk gOk : Bool)
    (pre post : List TenantEnv) (v : Bool) :
    tenant_step (TenantEnv.uploads true v) = (UploadStatus.OK, 0) ∧
    run_error_count ⟨inc, pbOk, fOk, gOk, pre ++ TenantEnv.uploads true v :: post⟩ =
      run_error_count ⟨inc, pbOk, fOk, gOk, pre ++ TenantEnv.uploads true true :: post⟩ ∧
    exit_code ⟨inc, pbOk, fOk, gOk, pre ++ TenantEnv.uploads true v :: post⟩ =
      exit_code ⟨inc, pbOk, fOk, gOk, pre ++ TenantEnv.uploads true true :: post⟩ := by
  have hstep : ∀ w : Bool, tenant_step (TenantEnv.uploads true w) = (UploadStatus.OK, 0) :=
    fun w => rfl
  have hrun : run_error_count ⟨inc, pbOk, fOk, gOk, pre ++ TenantEnv.uploads true v :: post⟩ =
      run_error_count ⟨inc, pbOk, fOk, gOk, pre ++ TenantEnv.uploads true true :: post⟩ := by
    simp [run_error_count, fulldb_errors, global_errors,
      tenant_stage_append, tenant_stage, hstep]
  exact ⟨hstep v, hrun, by unfold exit_code; rw [hrun]⟩

/-! ## C8: summary.json and restore behaviour -/

/-- C8 counterexample: two extracted archives identical except for the
PRESENCE of `summary.json` restore differently.  The archive layout produced
by `backup_tenant` nests the collection JSONs one directory below the
extraction root; with `summary.json` present the restore finds that
directory and creates the record, without it the restore scans the (empty)
root and restores nothing. -/
theorem c8_counterexample :
    restore_from_zip (fun _ => true) (fun _ => true) []
      ⟨⟨[]⟩, [⟨[⟨"summary.json", []⟩, ⟨"users.json", [⟨some "r1"⟩]⟩]⟩]⟩ false ≠
    restore_from_zip (fun _ => true) (fun _ => true) []
      ⟨⟨[]⟩, [⟨[⟨"users.json", [⟨some "r1"⟩]⟩]⟩]⟩ false := by
  decide

/-- The summary-content replacement never changes a file's name. -/
theorem mapSummaryFile_name (g : List Record → List Record) (f : FFile) :
    (mapSummaryFile g f).name = f.name := by
  unfold mapSummaryFile
  split <;> rfl

/-- The summary-content replacement preserves `summary.json` presence. -/
theorem hasSummary_mapSummaryDir (g : List Record → List Record) (d : WalkDir) :
    hasSummary (mapSummaryDir g d) = hasSummary d := by
  unfold hasSummary mapSummaryDir
  rw [List.any_map]
  simp [Function.comp_def, mapSummaryFile_name]

/-- The data directory selected after a summary-content replacement is the
replacement of the originally selected data directory. -/
theorem dataDir_mapSummary (g : List Record → List Record) (e : Extracted) :
    dataDir (mapSummary g e) = mapSummaryDir g (dataDir e) := by
  unfold dataDir mapSummary walkDirs
  have hmap : (mapSummaryDir g e.root :: e.rest.map (mapSummaryDir g)) =
      (e.root :: e.rest).map (mapSummaryDir g) := rfl
  rw [hmap, List.find?_map]
  have hp : (hasSummary ∘ mapSummaryDir g) = hasSummary := by
    funext d
    exact hasSummary_mapSummaryDir g d
  rw [hp]
  cases h : (e.root :: e.rest).find? hasSummary <;> simp

/-- The restore loop is blind to the contents of files named
`summary.json`. -/
theorem rzg_mapSummary (g : List Record → List Record)
    (createOk updateOk : String → Bool) :
    ∀ (files : List FFile) (store : List String) (dryRun : Bool),
    restore_zip_go createOk updateOk store dryRun (files.map (mapSummaryFile g)) =
      restore_zip_go createOk updateOk store dryRun files := by
  intro files
  induction files with
  | nil => intro store dryRun; rfl
  | cons f rest ih =>
    intro store dryRun
    rw [List.map_cons]
    by_cases h : (f.name == "summary.json") = true
    · have hcond1 : (listEndsWith ".json".toList (mapSummaryFile g f).name.toList &&
          (mapSummaryFile g f).name != "summary.json") = false := by
        rw [mapSummaryFile_name]
        simp [bne, h]
      have hcond2 : (listEndsWith ".json".toList f.name.toList &&
          f.name != "summary.json") = false := by
        simp [bne, h]
      rw [restore_zip_go, restore_zip_go,
        if_neg (ne_of_eq_of_ne hcond1 Bool.false_ne_true),
        if_neg (ne_of_eq_of_ne hcond2 Bool.false_ne_true)]
      exact ih store dryRun
    · have hf : mapSummaryFile g f = f := by
        unfold mapSummaryFile
        simp [h]
      rw [hf]
      by_cases hc : (listEndsWith ".json".toList f.name.toList &&
          f.name != "summary.json") = true
      · rw [restore_zip_go, restore_zip_go, if_pos hc, if_pos hc]
        by_cases he : f.records.isEmpty = true
        · rw [if_pos he, if_pos he]
          exact ih store dryRun
        · rw [if_neg he, if_neg he]
          simp only [ih]
      · rw [restore_zip_go, restore_zip_go, if_neg hc, if_neg hc]
        exact ih store dryRun

/-- C8 (amended): `summary.json` CONTENTS are informational only — two
extracted archives identical except for the parsed contents of their
`summary.json` files restore the same records to the same collections with
the same created/updated/skipped/errors totals; its PRESENCE, however,
selects which directory is restored (see the counterexample). -/
theorem c8_summary_contents_informational (g : List Record → List Record)
    (createOk updateOk : String → Bool) (store : List String)
    (e : Extracted) (dryRun : Bool) :
    restore_from_zip createOk updateOk store (mapSummary g e) dryRun =
      restore_from_zip createOk updateOk store e dryRun := by
  unfold restore_from_zip
  rw [dataDir_mapSummary]
  exact rzg_mapSummary g createOk updateOk (dataDir e).files store dryRun

/-! ## C9: substring tenant filter of restore_latest -/

/-- C9: every remote folder that contains the tenant filter as a substring
and is not a system (`_`-prefixed) folder is selected, and its
lexicographically greatest `.zip` archive is among the restore targets. -/
theorem c9_substring_filter (dirs : List String) (filesOf : String → List String)
    (f d z : String) (hd : d ∈ dirs)
    (hsub : pyContains f.toList d.toList = true)
    (hsys : listStartsWith "_".toList d.toList = false)
    (hz : ((filesOf d).filter fun n : String =>
      listEndsWith ".zip".toList n.toList).head? = some z) :
    (d, z) ∈ restore_latest_targets dirs filesOf (some f) := by
  simp only [restore_latest_targets]
  apply List.mem_filterMap.mpr
  refine ⟨d, ?_, ?_⟩
  · apply List.mem_mergeSort.mpr
    apply List.mem_filter.mpr
    refine ⟨?_, by simpa using hsys⟩
    exact List.mem_filter.mpr ⟨hd, hsub⟩
  · rw [hz]
    rfl

/-- Witness for C9: the filter `"Toko"` is a substring of two tenant folder
names at once, and both folders' latest archives are restore targets, while
the `_global` system folder is not consulted. -/
theorem c9_substring_filter_witness :
    ("Toko_A_x", "backup_2.zip") ∈ restore_latest_targets
      ["Toko_A_x", "_global", "Toko_B_y"]
      (fun d => if d = "Toko_A_x" then ["backup_2.zip", "backup_1.zip"]
        else ["backup_9.zip", "summary.txt"]) (some "Toko") ∧
    ("Toko_B_y", "backup_9.zip") ∈ restore_latest_targets
      ["Toko_A_x", "_global", "Toko_B_y"]
      (fun d => if d = "Toko_A_x" then ["backup_2.zip", "backup_1.zip"]
        else ["backup_9.zip", "summary.txt"]) (some "Toko") :=
  ⟨c9_substring_filter ["Toko_A_x", "_global", "Toko_B_y"]
      (fun d => if d = "Toko_A_x" then ["backup_2.zip", "backup_1.zip"]
        else ["backup_9.zip", "summary.txt"])
      "Toko" "Toko_A_x" "backup_2.zip" (by decide) (by decide) (by decide) (by decide),
    c9_substring_filter ["Toko_A_x", "_global", "Toko_B_y"]
      (fun d => if d = "Toko_A_x" then ["backup_2.zip", "backup_1.zip"]
        else ["backup_9.zip", "summary.txt"])
      "Toko" "Toko_B_y" "backup_9.zip" (by decide) (by decide) (by decide) (by decide)⟩

end IfixPro

